import Mathlib

/-!
Verification of the asset-grouping and slug-routing core of a portfolio
web application (source: `src/projectContent.js`).

JavaScript strings are shallowly embedded as `List Char` (named `Str`).
`String.prototype.toLowerCase` / `toUpperCase` are modelled on the ASCII
range (the identifiers at issue — file names, folder names, slugs, URL
paths — are compared through this model; the claims under study do not
depend on non-ASCII case mapping).  `localeCompare(_, undefined,
{sensitivity : "base"})` is modelled as code-point comparison of the
lower-cased strings.  `Array.prototype.sort(comparator)` (stable per
ES2019) is modelled by Mathlib's stable `List.insertionSort` over the
relation `comparator a b ≤ 0`.
-/

/-- A JavaScript string, embedded as its list of characters. -/
abbrev Str := List Char

/-- ASCII model of the case mapping used by `toLowerCase`. -/
def jsToLowerChar (c : Char) : Char :=
  if 65 ≤ c.toNat ∧ c.toNat ≤ 90 then Char.ofNat (c.toNat + 32) else c

/-- ASCII model of the case mapping used by `toUpperCase`. -/
def jsToUpperChar (c : Char) : Char :=
  if 97 ≤ c.toNat ∧ c.toNat ≤ 122 then Char.ofNat (c.toNat - 32) else c

/-- `value.toLowerCase()`. -/
def lowerStr (s : Str) : Str := s.map jsToLowerChar

/-- Three-way code-point comparison of characters. -/
def cmpChar (a b : Char) : Ordering :=
  if a.toNat < b.toNat then Ordering.lt
  else if b.toNat < a.toNat then Ordering.gt
  else Ordering.eq

/-- Three-way lexicographic comparison of strings (by code point). -/
def cmpStr : Str → Str → Ordering
  | [], [] => Ordering.eq
  | [], _ :: _ => Ordering.lt
  | _ :: _, [] => Ordering.gt
  | a :: as, b :: bs =>
    match cmpChar a b with
    | Ordering.eq => cmpStr as bs
    | o => o

/-- The sign convention of a JavaScript comparator result. -/
def orderingToInt : Ordering → Int
  | Ordering.lt => -1
  | Ordering.eq => 0
  | Ordering.gt => 1

/-- `a.localeCompare(b, undefined, { sensitivity : "base" })`: case-insensitive
comparison, modelled as code-point comparison of the lower-cased strings. -/
def jsLocaleCompareBase (a b : Str) : Int :=
  orderingToInt (cmpStr (lowerStr a) (lowerStr b))

/-- Remove the maximal trailing run of characters satisfying `p`. -/
def dropTrailing (p : Char → Bool) (s : Str) : Str :=
  (s.reverse.dropWhile p).reverse

/-- Characters matched by the regex class `[^a-z0-9]` (complemented):
lower-case ASCII letters and digits. -/
def isSlugAlnum (c : Char) : Prop :=
  (97 ≤ c.toNat ∧ c.toNat ≤ 122) ∨ (48 ≤ c.toNat ∧ c.toNat ≤ 57)

instance (c : Char) : Decidable (isSlugAlnum c) := by
  unfold isSlugAlnum; infer_instance

/-- `.replace(/&/g, " and ")`. -/
def replaceAmp : Str → Str
  | [] => []
  | c :: rest =>
    if c = '&' then ' ' :: 'a' :: 'n' :: 'd' :: ' ' :: replaceAmp rest
    else c :: replaceAmp rest

/-- `.replace(/[^a-z0-9]+/g, "-")`: each maximal run of characters outside
`[a-z0-9]` becomes a single hyphen.  (A non-alphanumeric character extends
the run to its right exactly when the already-collapsed tail starts with
the hyphen that run produced.) -/
def collapseNonAlnum : Str → Str
  | [] => []
  | c :: rest =>
    let tail := collapseNonAlnum rest
    if isSlugAlnum c then c :: tail
    else if tail.head? = some '-' then tail
    else '-' :: tail

/-- `.replace(/^-+|-+$/g, "")`: strip the leading and the trailing run of
hyphens. -/
def trimHyphens (s : Str) : Str :=
  dropTrailing (fun c => c == '-') (s.dropWhile (fun c => c == '-'))

/-- `toRouteSlug` from the source: lower-case, `&` → `" and "`, collapse
runs of non-alphanumerics to single hyphens, trim leading/trailing
hyphens. -/
def toRouteSlug (value : Str) : Str :=
  trimHyphens (collapseNonAlnum (replaceAmp (lowerStr value)))

/-- `normalizePathname` from the source: `""`/`"/"` ↦ `"/"`; otherwise
ensure a leading slash and strip all trailing slashes (falling back to
`"/"` when nothing remains). -/
def normalizePathname (value : Str) : Str :=
  if value = [] ∨ value = [ '/' ] then [ '/' ]
  else
    let withLeadingSlash := if value.head? = some '/' then value else '/' :: value
    let stripped := dropTrailing (fun c => c == '/') withLeadingSlash
    if stripped = [] then [ '/' ] else stripped

/-- Value of a hexadecimal digit character, if any. -/
def hexVal (c : Char) : Option Nat :=
  let n := c.toNat
  if 48 ≤ n ∧ n ≤ 57 then some (n - 48)
  else if 65 ≤ n ∧ n ≤ 70 then some (n - 55)
  else if 97 ≤ n ∧ n ≤ 102 then some (n - 87)
  else none

/-- First phase of `decodeURIComponent`: each `%HH` escape becomes a byte
(`Sum.inr`), every other character is kept (`Sum.inl`); a `%` that is not
followed by two hexadecimal digits is a failure (the URIError case). -/
def percentTokens : Str → Option (List (Sum Char Nat))
  | [] => some []
  | c :: rest =>
    if c = '%' then
      match rest with
      | h :: l :: rest' =>
        match hexVal h, hexVal l, percentTokens rest' with
        | some a, some b, some ts => some (Sum.inr (16 * a + b) :: ts)
        | _, _, _ => none
      | _ => none
    else (percentTokens rest).map (fun ts => Sum.inl c :: ts)

/-- UTF-8 validation state for the second phase of `decodeURIComponent`:
`some (need, acc, lo, hi)` means `need` more continuation bytes are
expected, `acc` is the code point accumulated so far, and the next byte
must lie in `lo..hi` (the narrowed first-continuation ranges enforce
shortest form and exclude surrogates and values beyond U+10FFFF). -/
abbrev Utf8State := Option (Nat × Nat × Nat × Nat)

/-- Second phase of `decodeURIComponent`: escaped bytes must form valid
(strict, shortest-form, surrogate-free) UTF-8 sequences; anything else is
a failure (the URIError case).  An unescaped character may not appear
inside a multi-byte sequence. -/
def decodeTokens : Utf8State → List (Sum Char Nat) → Option Str
  | none, [] => some []
  | some _, [] => none
  | none, Sum.inl c :: ts => (decodeTokens none ts).map (fun r => c :: r)
  | some _, Sum.inl _ :: _ => none
  | none, Sum.inr b :: ts =>
    if b < 128 then (decodeTokens none ts).map (fun r => Char.ofNat b :: r)
    else if 194 ≤ b ∧ b ≤ 223 then decodeTokens (some (1, b - 192, 128, 191)) ts
    else if 224 ≤ b ∧ b ≤ 239 then
      decodeTokens
        (some (2, b - 224, if b = 224 then 160 else 128, if b = 237 then 159 else 191)) ts
    else if 240 ≤ b ∧ b ≤ 244 then
      decodeTokens
        (some (3, b - 240, if b = 240 then 144 else 128, if b = 244 then 143 else 191)) ts
    else none
  | some (need, acc, lo, hi), Sum.inr b :: ts =>
    if lo ≤ b ∧ b ≤ hi then
      if need = 1 then
        (decodeTokens none ts).map (fun r => Char.ofNat (acc * 64 + (b - 128)) :: r)
      else decodeTokens (some (need - 1, acc * 64 + (b - 128), 128, 191)) ts
    else none

/-- `decodeURIComponent`, total: `none` models a thrown `URIError`. -/
def jsDecodeURIComponent (s : Str) : Option Str :=
  (percentTokens s).bind (decodeTokens none)

/-- `try { return decodeURIComponent(s) } catch { return s }`. -/
def decodeURIComponentOrSelf (s : Str) : Str :=
  (jsDecodeURIComponent s).getD s

/-- Characters `encodeURIComponent` leaves unescaped:
`A-Z a-z 0-9 - _ . ! ~ * ' ( )`. -/
def isUnreservedURI (c : Char) : Prop :=
  (65 ≤ c.toNat ∧ c.toNat ≤ 90) ∨ (97 ≤ c.toNat ∧ c.toNat ≤ 122) ∨
  (48 ≤ c.toNat ∧ c.toNat ≤ 57) ∨
  c = '-' ∨ c = '_' ∨ c = '.' ∨ c = '!' ∨ c = '~' ∨ c = '*' ∨
  c = Char.ofNat 39 ∨ c = '(' ∨ c = ')'

instance (c : Char) : Decidable (isUnreservedURI c) := by
  unfold isUnreservedURI; infer_instance

/-- The UTF-8 bytes of a character. -/
def utf8Bytes (c : Char) : List Nat :=
  let n := c.toNat
  if n < 128 then [n]
  else if n < 2048 then [192 + n / 64, 128 + n % 64]
  else if n < 65536 then [224 + n / 4096, 128 + (n / 64) % 64, 128 + n % 64]
  else [240 + n / 262144, 128 + (n / 4096) % 64, 128 + (n / 64) % 64, 128 + n % 64]

/-- Upper-case hexadecimal digit. -/
def hexDigitUpper (n : Nat) : Char :=
  if n < 10 then Char.ofNat (48 + n) else Char.ofNat (55 + n)

/-- A `%HH` escape for one byte. -/
def percentHex (b : Nat) : Str := [ '%', hexDigitUpper (b / 16), hexDigitUpper (b % 16) ]

/-- `encodeURIComponent`. -/
def encodeURIComponent (s : Str) : Str :=
  (s.map (fun c =>
    if isUnreservedURI c then [c] else ((utf8Bytes c).map percentHex).flatten)).flatten

/-- JavaScript regex line terminators, which `.` (without the `s` flag)
does not match. -/
def isLineTerminator (c : Char) : Prop :=
  c = '\n' ∨ c = '\r' ∨ c.toNat = 8232 ∨ c.toNat = 8233

instance (c : Char) : Decidable (isLineTerminator c) := by
  unfold isLineTerminator; infer_instance

/-- Numeric value of a decimal digit character. -/
def digitNat (c : Char) : Nat := c.toNat - 48

/-- Match against `SHOOT_FOLDER_RE = /^(\d{4})-(\d{2})-(\d{2})-(.+)$/`,
returning `Number(year)`, `Number(month)`, `Number(day)` and the free-text
suffix (capture 4).  `.+` requires at least one character and cannot cross
a line terminator. -/
def parseShootFolder (s : Str) : Option (Int × Int × Int × Str) :=
  match s with
  | y1 :: y2 :: y3 :: y4 :: '-' :: m1 :: m2 :: '-' :: d1 :: d2 :: '-' :: rest =>
    if y1.isDigit ∧ y2.isDigit ∧ y3.isDigit ∧ y4.isDigit ∧
       m1.isDigit ∧ m2.isDigit ∧ d1.isDigit ∧ d2.isDigit ∧
       rest ≠ [] ∧ (∀ c ∈ rest, ¬ isLineTerminator c) then
      some
        (Int.ofNat (((digitNat y1 * 10 + digitNat y2) * 10 + digitNat y3) * 10 + digitNat y4),
         Int.ofNat (digitNat m1 * 10 + digitNat m2),
         Int.ofNat (digitNat d1 * 10 + digitNat d2),
         rest)
    else none
  | _ => none

/-- Days from the epoch (1970-01-01) to the first day of the 0-based month
`mn` (`0 ≤ mn ≤ 11`) of year `y`, proleptic Gregorian. -/
def daysSinceEpoch (y mn : Int) : Int :=
  let yShift := if mn ≤ 1 then y - 1 else y
  let era := Int.fdiv yShift 400
  let yoe := yShift - era * 400
  let mp := Int.emod (mn + 10) 12
  let doy := Int.fdiv (153 * mp + 2) 5
  let doe := yoe * 365 + Int.fdiv yoe 4 - Int.fdiv yoe 100 + doy
  era * 146097 + doe - 719468

/-- `Date.UTC(year, month0, day)` in milliseconds since the epoch.
ECMAScript first applies `MakeFullYear`: a year argument from 0 to 99 is
interpreted as 1900 + year (so the reachable four-digit captures
`0000`–`0099` denote 1900–1999); then `MakeDay` rolls an out-of-range
`month0` into the year and adds the day as an offset from day 1. -/
def dateUTC (year month0 day : Int) : Int :=
  let yr := if 0 ≤ year ∧ year ≤ 99 then 1900 + year else year
  let ym := yr + Int.fdiv month0 12
  let mn := Int.emod month0 12
  (daysSinceEpoch ym mn + day - 1) * 86400000

/-- `getFolderDateValue` from the source; `none` models the
`Number.NEGATIVE_INFINITY` returned for names that fail the pattern. -/
def getFolderDateValue (folderName : Str) : Option Int :=
  (parseShootFolder folderName).map (fun g => dateUTC g.1 (g.2.1 - 1) g.2.2.1)

/-- `coverRegex.test(fileName)` for `/^cover\.(jpg|jpeg|png)$/i`. -/
def coverRegexTest (fileName : Str) : Prop :=
  lowerStr fileName = "cover.jpg".toList ∨
  lowerStr fileName = "cover.jpeg".toList ∨
  lowerStr fileName = "cover.png".toList

instance (fileName : Str) : Decidable (coverRegexTest fileName) := by
  unfold coverRegexTest; infer_instance

/-- Characters matched by the JavaScript regex class `\s`. -/
def isJsWhitespace (c : Char) : Prop :=
  c.toNat = 9 ∨ c.toNat = 10 ∨ c.toNat = 11 ∨ c.toNat = 12 ∨ c.toNat = 13 ∨
  c.toNat = 32 ∨ c.toNat = 160 ∨ c.toNat = 5760 ∨
  (8192 ≤ c.toNat ∧ c.toNat ≤ 8202) ∨
  c.toNat = 8232 ∨ c.toNat = 8233 ∨ c.toNat = 8239 ∨ c.toNat = 8287 ∨
  c.toNat = 12288 ∨ c.toNat = 65279

instance (c : Char) : Decidable (isJsWhitespace c) := by
  unfold isJsWhitespace; infer_instance

/-- Separators of `toTitleCase`: the regex class `[\s_-]`. -/
def isTitleSep (c : Char) : Bool :=
  decide (isJsWhitespace c) || c == '_' || c == '-'

/-- `value.split(/[\s_-]+/).filter(Boolean)`: the maximal separator-free
words, with empty pieces dropped.  `acc` is the current word, reversed. -/
def splitWordsAux : Str → Str → List Str
  | [], acc => if acc = [] then [] else [acc.reverse]
  | c :: rest, acc =>
    if isTitleSep c then
      if acc = [] then splitWordsAux rest []
      else acc.reverse :: splitWordsAux rest []
    else splitWordsAux rest (c :: acc)

/-- `toTitleCase` from the source: split on separator runs, upper-case each
word's first character, join with single spaces. -/
def toTitleCase (value : Str) : Str :=
  List.intercalate [ ' ' ]
    ((splitWordsAux value []).map (fun w =>
      match w with
      | [] => []
      | c :: rest => jsToUpperChar c :: rest))

/-- `HERO_PATH` from the source. -/
def HERO_PATH : Str := "./assets/photos/A.Wachtendonk-17.JPG".toList

/-- `PHOTO_ROOT_PREFIX` from the source. -/
def PHOTO_ROOT_PREFIX : Str := "./assets/photos/".toList

/-- `PROJECT_PATH_PREFIX` from the source. -/
def PROJECT_PATH_PREFIX : Str := "/portfolio/".toList

/-- The candidate capture of `([^/]+)\/?$`: what remains after the prefix,
with one optional trailing slash removed. -/
def portfolioCore (rest : Str) : Str :=
  if rest.getLast? = some '/' then rest.dropLast else rest

/-- `([^/]+)\/?$` applied after the prefix: the candidate capture must be
non-empty and slash-free. -/
def portfolioSegment (rest : Str) : Option Str :=
  if portfolioCore rest ≠ [] ∧ (∀ c ∈ portfolioCore rest, c ≠ '/') then
    some (portfolioCore rest)
  else none

/-- Match against `/^\/portfolio\/([^/]+)\/?$/`, returning the capture:
after the prefix, a non-empty slash-free segment, optionally followed by a
single trailing slash. -/
def matchPortfolioRegex (pathname : Str) : Option Str :=
  if PROJECT_PATH_PREFIX.isPrefixOf pathname then
    portfolioSegment (pathname.drop PROJECT_PATH_PREFIX.length)
  else none

/-- `getProjectSlugFromPathname` from the source: on a regex match, the
percent-decoded (falling back to the raw segment on a `URIError`),
lower-cased capture; otherwise `null`. -/
def getProjectSlugFromPathname (pathname : Str) : Option Str :=
  match matchPortfolioRegex pathname with
  | none => none
  | some seg => some (lowerStr (decodeURIComponentOrSelf seg))

/-- `getProjectPath` from the source. -/
def getProjectPath (projectSlug : Str) : Str :=
  PROJECT_PATH_PREFIX ++ encodeURIComponent projectSlug

/-- One entry of the static `PROJECT_CONTENT` table; absent fields are
`none` (JavaScript `undefined`). -/
structure ProjectContentEntry where
  title : Option Str
  header : Option Str
  category : Option Str
  subtext : Option Str
  description : Option Str

/-- The `{}` fallback of `PROJECT_CONTENT[routeSlug] ?? {}`. -/
def emptyContentEntry : ProjectContentEntry :=
  { title := none, header := none, category := none, subtext := none, description := none }

/-- `DEFAULT_PROJECT_CONTENT` from `projectContent.js` (it defines exactly
`header`, `category` and `description`). -/
structure DefaultContent where
  header : Str
  category : Str
  description : Str

def DEFAULT_PROJECT_CONTENT : DefaultContent :=
  { header := "Creative Shoot".toList,
    category := "Creative Shoot".toList,
    description := "Add a custom description for this project in src/projectContent.js.".toList }

/-- The static `PROJECT_CONTENT` table, as a lookup on the route slug.
(`undefined` for unknown keys; a key naming an inherited `Object.prototype`
property would yield an object carrying none of the five fields read by
the grouper, which this `none`/`?? {}` model reproduces.) -/
def PROJECT_CONTENT (slug : Str) : Option ProjectContentEntry :=
  if slug = "editorial".toList then
    some { title := some ( "Editorial".toList), header := some ( "Creative Shoot".toList),
           category := some ( "Creative Shoot".toList), subtext := none,
           description := some ( "A cinematic exploration of styling, form, and atmosphere.".toList) }
  else if slug = "commercial".toList then
    some { title := some ( "Commercial".toList), header := some ( "Commercial Shoot".toList),
           category := some ( "Commercial Shoot".toList), subtext := none,
           description := some ( "Polished campaign imagery built for product-forward brand narratives.".toList) }
  else if slug = "urban".toList then
    some { title := some ( "Urban".toList), header := some ( "Urban Shoot".toList),
           category := some ( "Urban Shoot".toList), subtext := none,
           description := some ( "Location-based portrait work balancing raw structure and modern styling.".toList) }
  else if slug = "lifestyle".toList then
    some { title := some ( "Lifestyle".toList), header := some ( "Lifestyle Shoot".toList),
           category := some ( "Lifestyle Shoot".toList), subtext := none,
           description := some ( "Natural interaction and candid motion centered on authenticity, warmth, and ease.".toList) }
  else if slug = "high-fashion".toList then
    some { title := some ( "High Fashion".toList), header := some ( "High Fashion Shoot".toList),
           category := some ( "High Fashion Shoot".toList), subtext := none,
           description := some ( "An exploration of clean silhouettes and intentional movement.".toList) }
  else if slug = "beauty-and-portraits".toList then
    some { title := some ( "Beauty & Portraits".toList), header := some ( "Beauty Shoot".toList),
           category := some ( "Beauty Shoot".toList), subtext := none,
           description := some ( "Close framing and soft tonal detail centered on expression, skin, and shape.".toList) }
  else none

/-- One image file collected into a shoot folder's bucket:
`{ path, fileName, loader }`.  The loader is abstract (type `α`). -/
structure FileEntry (α : Type) where
  path : Str
  fileName : Str
  loader : α
deriving DecidableEq

/-- One image file collected into the digitals bucket:
`{ fileName, loader }`. -/
structure DigitalFile (α : Type) where
  fileName : Str
  loader : α
deriving DecidableEq

/-- The two accumulators of the grouping pass: the insertion-ordered
`shootsByFolder` map and the `digitals` array. -/
structure Buckets (α : Type) where
  shootsByFolder : List (Str × List (FileEntry α))
  digitals : List (DigitalFile α)

/-- `"a/b/c".split("/")` (empty pieces kept, as in JavaScript). -/
def splitOnSlashAux : Str → Str → List Str
  | [], acc => [acc.reverse]
  | c :: rest, acc =>
    if c = '/' then acc.reverse :: splitOnSlashAux rest []
    else splitOnSlashAux rest (c :: acc)

def splitOnSlash (s : Str) : List Str := splitOnSlashAux s []

/-- `if (!map.has(k)) map.set(k, []); map.get(k).push(v)` on an
insertion-ordered map. -/
def pushToFolder (m : List (Str × List (FileEntry α))) (k : Str) (v : FileEntry α) :
    List (Str × List (FileEntry α)) :=
  if m.any (fun p => p.1 == k) then
    m.map (fun p => if p.1 == k then (p.1, p.2 ++ [v]) else p)
  else m ++ [(k, [v])]

/-- The body of the `Object.entries(photoLoaders).forEach` classification
loop. -/
def classifyStep (b : Buckets α) (path : Str) (loader : α) : Buckets α :=
  if path = HERO_PATH ∨ ¬ PHOTO_ROOT_PREFIX.isPrefixOf path then b
  else
    let relativePath := path.drop PHOTO_ROOT_PREFIX.length
    let parts := splitOnSlash relativePath
    if parts.length < 2 then b
    else
      let folderName := parts.headD []
      let fileName := parts.getLast?.getD []
      if lowerStr folderName = "digitals".toList then
        { b with digitals := b.digitals ++ [{ fileName := fileName, loader := loader }] }
      else if (parseShootFolder folderName).isSome then
        let entry : FileEntry α := { path := path, fileName := fileName, loader := loader }
        { b with shootsByFolder := pushToFolder b.shootsByFolder folderName entry }
      else b

/-- Run the classification loop over the whole input mapping (a list of
`(path, loader)` entries in object-key order). -/
def collectBuckets (entries : List (Str × α)) : Buckets α :=
  entries.foldl (fun b e => classifyStep b e.1 e.2) { shootsByFolder := [], digitals := [] }

/-- The ascending per-folder file order: comparator
`a.fileName.localeCompare(b.fileName, undefined, { sensitivity : "base" })`
at non-positive values. -/
abbrev fileNameLe (a b : FileEntry α) : Prop :=
  jsLocaleCompareBase a.fileName b.fileName ≤ 0

/-- The digitals file order (same comparator as `fileNameLe`). -/
abbrev digitalLe (a b : DigitalFile α) : Prop :=
  jsLocaleCompareBase a.fileName b.fileName ≤ 0

/-- The shoot-folder comparator: `getFolderDateValue(folderB) -
getFolderDateValue(folderA)` when nonzero, otherwise
`folderB.localeCompare(folderA, undefined, { sensitivity : "base" })`.
The `none` (= `NEGATIVE_INFINITY`) branches model IEEE arithmetic on the
infinities; for two unparsable names the subtraction is `NaN`, which
`Array.prototype.sort` treats as `+0`. -/
def folderCompare (a b : Str) : Int :=
  match getFolderDateValue a, getFolderDateValue b with
  | some da, some db => if db - da ≠ 0 then db - da else jsLocaleCompareBase b a
  | some _, none => -1
  | none, some _ => 1
  | none, none => 0

/-- The folder sort order on `shootsByFolder` entries. -/
abbrev folderPairLe (a b : Str × List (FileEntry α)) : Prop :=
  folderCompare a.1 b.1 ≤ 0

/-- `[...files].sort((a, b) => a.fileName.localeCompare(...))`,
modelled by the stable insertion sort. -/
def sortedFilesOf (files : List (FileEntry α)) : List (FileEntry α) :=
  List.insertionSort fileNameLe files

/-- `sortedFiles.find((file) => coverRegex.test(file.fileName)) || sortedFiles[0]`. -/
def coverFileOf (sortedFiles : List (FileEntry α)) (first : FileEntry α) : FileEntry α :=
  (sortedFiles.find? (fun f => decide (coverRegexTest f.fileName))).getD first

/-- `sortedFiles.filter((file) => file.path !== coverFile.path)`. -/
def galleryFilesOf (sortedFiles : List (FileEntry α)) (coverFile : FileEntry α) :
    List (FileEntry α) :=
  sortedFiles.filter (fun f => ! (f.path == coverFile.path))

/-- A built Project record. -/
structure Project (α : Type) where
  id : Str
  routeSlug : Str
  title : Str
  header : Str
  subtext : Option Str
  category : Str
  description : Str
  image : α
  backgroundImage : α
  gallery : List α
deriving DecidableEq

/-- The per-folder body of the `builtShoots` `.map`: `null` (here `none`)
for an empty folder, otherwise the Project record.  `header` is
`pc.header ?? category ?? DEFAULT.header`; since `category` is always a
string the last alternative is unreachable.  `subtext` is
`pc.subtext ?? DEFAULT_PROJECT_CONTENT.subtext`, and the default record
has no `subtext` field, so both alternatives may be `undefined`. -/
def buildProject (folderName : Str) (files : List (FileEntry α)) : Option (Project α) :=
  match sortedFilesOf files with
  | [] => none
  | first :: rest =>
    let sortedFiles := first :: rest
    let coverFile := coverFileOf sortedFiles first
    let gallery := (galleryFilesOf sortedFiles coverFile).map (fun f => f.loader)
    let backgroundImage := gallery.headD coverFile.loader
    let folderSlug :=
      match parseShootFolder folderName with
      | some g => g.2.2.2
      | none => folderName
    let routeSlug := toRouteSlug folderSlug
    let projectContent := (PROJECT_CONTENT routeSlug).getD emptyContentEntry
    let title := projectContent.title.getD (toTitleCase folderSlug)
    let category := projectContent.category.getD DEFAULT_PROJECT_CONTENT.category
    let header := projectContent.header.getD category
    let subtext := projectContent.subtext
    let description := projectContent.description.getD DEFAULT_PROJECT_CONTENT.description
    some
      { id := folderName, routeSlug := routeSlug, title := title, header := header,
        subtext := subtext, category := category, description := description,
        image := coverFile.loader, backgroundImage := backgroundImage, gallery := gallery }

/-- `builtShoots`: sort the folder buckets with the folder comparator,
build each Project, `.filter(Boolean)`. -/
def buildShoots (entries : List (Str × α)) : List (Project α) :=
  ((List.insertionSort folderPairLe (collectBuckets entries).shootsByFolder).map
    (fun kv => buildProject kv.1 kv.2)).filterMap id

/-- `sortedDigitals`: sort the digitals bucket by file name, keep the
loaders, `.slice(0, 3)`. -/
def buildDigitals (entries : List (Str × α)) : List α :=
  (((List.insertionSort digitalLe (collectBuckets entries).digitals).map
    (fun f => f.loader)).take 3)

/-- `isProjectRoute = pathname.startsWith(PROJECT_PATH_PREFIX)`. -/
def isProjectRoute (pathname : Str) : Bool :=
  PROJECT_PATH_PREFIX.isPrefixOf pathname

/-- `selectedProject`: `null` when the slug is `null` (or the falsy empty
string), otherwise the first shoot whose `routeSlug` equals the slug,
`?? null`. -/
def selectedProject (shoots : List (Project α)) (pathname : Str) : Option (Project α) :=
  match getProjectSlugFromPathname pathname with
  | none => none
  | some slug =>
    if slug = [] then none
    else shoots.find? (fun item => item.routeSlug == slug)

/-- The three presentation states of the top-level render:
the home page, a project detail page, and the project-not-found page. -/
inductive RouterState (α : Type) where
  | home
  | detail (p : Project α)
  | notFound
deriving DecidableEq

/-- The render dispatch: `!isProjectRoute ? home : selectedProject ?
detail : notFound`. -/
def routerState (shoots : List (Project α)) (pathname : Str) : RouterState α :=
  if isProjectRoute pathname then
    match selectedProject shoots pathname with
    | some p => RouterState.detail p
    | none => RouterState.notFound
  else RouterState.home

/-- The folder order lifted to built Projects (by their `id`, the raw
folder name). -/
abbrev shootLe (a b : Project α) : Prop :=
  folderCompare a.id b.id ≤ 0

/-- The shape the specification asserts for normalized paths: the root, or
exactly one leading slash and no trailing slash. -/
def exactlyOneLeadingSlashShape (s : Str) : Prop :=
  s = [ '/' ] ∨
  (s.head? = some '/' ∧ (s.drop 1).head? ≠ some '/' ∧ s.getLast? ≠ some '/')

instance (s : Str) : Decidable (exactlyOneLeadingSlashShape s) := by
  unfold exactlyOneLeadingSlashShape; infer_instance

/-- A placeholder Project used only as the default of `List.headD` /
`List.getD` in concrete evaluations. -/
def defaultProject : Project Nat :=
  { id := [], routeSlug := [], title := [], header := [], subtext := none,
    category := [], description := [], image := 0, backgroundImage := 0, gallery := [] }

/-- Concrete folder files exercising the cover/gallery split. -/
def c1Files : List (FileEntry Nat) :=
  [ { path := "./assets/photos/2026-01-01-test/b.jpg".toList,
      fileName := "b.jpg".toList, loader := 1 },
    { path := "./assets/photos/2026-01-01-test/a.jpg".toList,
      fileName := "a.jpg".toList, loader := 2 } ]

/-- Concrete folder files containing a cover file. -/
def c2Files : List (FileEntry Nat) :=
  [ { path := "./assets/photos/2026-01-01-test/z.jpg".toList,
      fileName := "z.jpg".toList, loader := 1 },
    { path := "./assets/photos/2026-01-01-test/Cover.PNG".toList,
      fileName := "Cover.PNG".toList, loader := 2 } ]

def c4wPath : Str := "abc//".toList

/-- An input mapping with four digitals files. -/
def c9wEntries : List (Str × Nat) :=
  [ ( "./assets/photos/digitals/d2.jpg".toList, 1),
    ( "./assets/photos/digitals/d1.jpg".toList, 2),
    ( "./assets/photos/digitals/d3.jpg".toList, 3),
    ( "./assets/photos/digitals/d4.jpg".toList, 4) ]

def c2First : FileEntry Nat :=
  { path := "./assets/photos/2026-01-01-test/Cover.PNG".toList,
    fileName := "Cover.PNG".toList, loader := 2 }

def c2Second : FileEntry Nat :=
  { path := "./assets/photos/2026-01-01-test/z.jpg".toList,
    fileName := "z.jpg".toList, loader := 1 }

/-- Two dated folder names differing only in letter case. -/
def cexFolderUpper : Str := "2020-01-01-A".toList

def cexFolderLower : Str := "2020-01-01-a".toList

def w3FolderA : Str := "2026-08-01-editorial".toList

def w3FolderB : Str := "2026-07-15-lifestyle-shoot".toList

def w3FolderC : Str := "2026-07-15-alpha".toList

/-- An input mapping whose only shoot folder has a suffix that normalizes
to the empty route slug. -/
def c5Entries : List (Str × Nat) :=
  [ ( "./assets/photos/2026-01-01-_/a.jpg".toList, 0) ]

/-- An input mapping with one ordinary shoot folder. -/
def c5wEntries : List (Str × Nat) :=
  [ ( "./assets/photos/2026-01-15-editorial/a.jpg".toList, 0) ]

def c5wProj : Project Nat := (buildShoots c5wEntries).headD defaultProject

/-- A concrete Project collection for exercising the router. -/
def c6Proj : Project Nat :=
  { id := "2026-01-01-shoot-1".toList, routeSlug := "shoot-1".toList, title := [],
    header := [], subtext := none, category := [], description := [],
    image := 0, backgroundImage := 0, gallery := [] }

def c6PathOther : Str := "/portfolio/other".toList

def c6Root : Str := "/".toList

def c7Path : Str := "/portfolio/Shoot-1/".toList

def c7Seg : Str := "Shoot-1".toList

def c8Entries : List (Str × Nat) :=
  [ ( "./assets/photos/2026-02-03-Urban & Night/x.jpg".toList, 0) ]

def c8Proj : Project Nat := (buildShoots c8Entries).headD defaultProject

/-- Two shoot folders whose suffixes produce the same route slug. -/
def c10Entries : List (Str × Nat) :=
  [ ( "./assets/photos/2026-02-01-dup/b.jpg".toList, 1),
    ( "./assets/photos/2026-03-05-dup/a.jpg".toList, 2) ]

def c10Path : Str := "/portfolio/dup".toList

def c10P1 : Project Nat := (buildShoots c10Entries).headD defaultProject

def c10P2 : Project Nat := List.getD (buildShoots c10Entries) 1 defaultProject

/-! ### Comparison lemmas -/

theorem char_toNat_inj {a b : Char} (h : a.toNat = b.toNat) : a = b := by
  apply Char.ext
  exact UInt32.ext h

theorem cmpChar_lt_iff {a b : Char} : cmpChar a b = Ordering.lt ↔ a.toNat < b.toNat := by
  unfold cmpChar
  split
  · simp [*]
  · split <;> simp_all

theorem cmpChar_gt_iff {a b : Char} : cmpChar a b = Ordering.gt ↔ b.toNat < a.toNat := by
  unfold cmpChar
  split
  · simp_all; omega
  · split <;> simp_all

theorem cmpChar_eq_iff {a b : Char} : cmpChar a b = Ordering.eq ↔ a = b := by
  unfold cmpChar
  constructor
  · intro h
    split at h <;> simp_all
    · exact char_toNat_inj (by omega)
  · rintro rfl
    simp

theorem cmpStr_eq_iff {a b : Str} : cmpStr a b = Ordering.eq ↔ a = b := by
  induction a generalizing b with
  | nil => cases b <;> simp [cmpStr]
  | cons x xs ih =>
    cases b with
    | nil => simp [cmpStr]
    | cons y ys =>
      simp only [cmpStr]
      rcases h : cmpChar x y with _ | _ | _
      · simp only [h]
        constructor
        · intro h'; cases h'
        · rintro ⟨rfl, rfl⟩
          rw [cmpChar_eq_iff.mpr rfl] at h; cases h
      · rw [cmpChar_eq_iff] at h
        subst h
        simp [ih]
      · simp only [h]
        constructor
        · intro h'; cases h'
        · rintro ⟨rfl, rfl⟩
          rw [cmpChar_eq_iff.mpr rfl] at h; cases h

theorem cmpChar_swap (a b : Char) : cmpChar b a = (cmpChar a b).swap := by
  rcases h : cmpChar a b with _ | _ | _
  · rw [cmpChar_lt_iff] at h
    simpa [Ordering.swap] using cmpChar_gt_iff.mpr h
  · rw [cmpChar_eq_iff] at h
    subst h
    simpa [Ordering.swap] using cmpChar_eq_iff.mpr rfl
  · rw [cmpChar_gt_iff] at h
    simpa [Ordering.swap] using cmpChar_lt_iff.mpr h

theorem cmpStr_swap (a b : Str) : cmpStr b a = (cmpStr a b).swap := by
  induction a generalizing b with
  | nil => cases b <;> simp [cmpStr, Ordering.swap]
  | cons x xs ih =>
    cases b with
    | nil => simp [cmpStr, Ordering.swap]
    | cons y ys =>
      simp only [cmpStr, cmpChar_swap x y]
      rcases cmpChar x y with _ | _ | _ <;> simp [Ordering.swap, ih]

theorem cmpChar_lt_trans {a b c : Char} (h1 : cmpChar a b = Ordering.lt)
    (h2 : cmpChar b c = Ordering.lt) : cmpChar a c = Ordering.lt := by
  rw [cmpChar_lt_iff] at h1 h2 ⊢
  omega

theorem cmpStr_lt_trans {a b c : Str} (h1 : cmpStr a b = Ordering.lt)
    (h2 : cmpStr b c = Ordering.lt) : cmpStr a c = Ordering.lt := by
  induction a generalizing b c with
  | nil =>
    cases c with
    | nil =>
      cases b with
      | nil => exact h1
      | cons y ys => simp [cmpStr] at h2
    | cons z zs => simp [cmpStr]
  | cons x xs ih =>
    cases b with
    | nil => simp [cmpStr] at h1
    | cons y ys =>
      cases c with
      | nil => simp [cmpStr] at h2
      | cons z zs =>
        simp only [cmpStr] at h1 h2 ⊢
        rcases hxy : cmpChar x y with _ | _ | _ <;> rw [hxy] at h1
        · rcases hyz : cmpChar y z with _ | _ | _ <;> rw [hyz] at h2
          · rw [cmpChar_lt_trans hxy hyz]
          · rw [cmpChar_eq_iff] at hyz
            subst hyz
            rw [hxy]
          · cases h2
        · rw [cmpChar_eq_iff] at hxy
          subst hxy
          rcases hyz : cmpChar x z with _ | _ | _ <;> rw [hyz] at h2
          · exact ih h1 h2
          · cases h2
        · cases h1

theorem cmpStr_le_trans {a b c : Str} (h1 : cmpStr a b ≠ Ordering.gt)
    (h2 : cmpStr b c ≠ Ordering.gt) : cmpStr a c ≠ Ordering.gt := by
  rcases hab : cmpStr a b with _ | _ | _
  · rcases hbc : cmpStr b c with _ | _ | _
    · rw [cmpStr_lt_trans hab hbc]; simp
    · rw [cmpStr_eq_iff] at hbc; subst hbc; rw [hab]; simp
    · exact absurd hbc h2
  · rw [cmpStr_eq_iff] at hab; subst hab; exact h2
  · exact absurd hab h1

theorem jsLoc_le_iff {a b : Str} :
    jsLocaleCompareBase a b ≤ 0 ↔ cmpStr (lowerStr a) (lowerStr b) ≠ Ordering.gt := by
  unfold jsLocaleCompareBase
  rcases cmpStr (lowerStr a) (lowerStr b) with _ | _ | _ <;> simp [orderingToInt]

theorem jsLoc_lt_iff {a b : Str} :
    jsLocaleCompareBase a b < 0 ↔ cmpStr (lowerStr a) (lowerStr b) = Ordering.lt := by
  unfold jsLocaleCompareBase
  rcases cmpStr (lowerStr a) (lowerStr b) with _ | _ | _ <;> simp [orderingToInt]

theorem jsLoc_eq_iff {a b : Str} :
    jsLocaleCompareBase a b = 0 ↔ lowerStr a = lowerStr b := by
  unfold jsLocaleCompareBase
  rw [← cmpStr_eq_iff]
  rcases cmpStr (lowerStr a) (lowerStr b) with _ | _ | _ <;> simp [orderingToInt]

theorem jsLoc_total (a b : Str) :
    jsLocaleCompareBase a b ≤ 0 ∨ jsLocaleCompareBase b a ≤ 0 := by
  rw [jsLoc_le_iff, jsLoc_le_iff, cmpStr_swap (lowerStr a) (lowerStr b)]
  rcases cmpStr (lowerStr a) (lowerStr b) with _ | _ | _ <;> simp [Ordering.swap]

theorem jsLoc_trans {a b c : Str} (h1 : jsLocaleCompareBase a b ≤ 0)
    (h2 : jsLocaleCompareBase b c ≤ 0) : jsLocaleCompareBase a c ≤ 0 := by
  rw [jsLoc_le_iff] at h1 h2 ⊢
  exact cmpStr_le_trans h1 h2

/-! ### dropTrailing lemmas -/

theorem dropTrailing_getLast {p : Char → Bool} {s : Str} {a : Char}
    (h : (dropTrailing p s).getLast? = some a) : p a = false := by
  unfold dropTrailing at h
  rw [List.getLast?_reverse] at h
  have := List.head?_dropWhile_not p s.reverse
  rw [h] at this
  exact this

theorem dropTrailing_eq_self {p : Char → Bool} {s : Str}
    (h : ∀ a, s.getLast? = some a → p a = false) : dropTrailing p s = s := by
  unfold dropTrailing
  cases hs : s.reverse with
  | nil =>
    have : s = [] := by simpa using congrArg List.reverse hs
    simp [hs, this]
  | cons a t =>
    have ha : s.getLast? = some a := by
      rw [← List.head?_reverse, hs, List.head?_cons]
    rw [List.dropWhile_cons, h a ha]
    simp [← hs]

theorem dropTrailing_append (p : Char → Bool) (s : Str) :
    ∃ t, s = dropTrailing p s ++ t := by
  refine ⟨(s.reverse.takeWhile p).reverse, ?_⟩
  unfold dropTrailing
  rw [← List.reverse_append, List.takeWhile_append_dropWhile, List.reverse_reverse]

theorem dropTrailing_head {p : Char → Bool} {s : Str}
    (h : dropTrailing p s ≠ []) : (dropTrailing p s).head? = s.head? := by
  obtain ⟨t, ht⟩ := dropTrailing_append p s
  cases hd : dropTrailing p s with
  | nil => exact absurd hd h
  | cons a r =>
    rw [hd] at ht
    rw [ht]
    simp

theorem dropTrailing_sublist (p : Char → Bool) (s : Str) :
    List.Sublist (dropTrailing p s) s := by
  obtain ⟨t, ht⟩ := dropTrailing_append p s
  conv_rhs => rw [ht]
  exact List.sublist_append_left _ _

/-! ### Shape and idempotence of normalizePathname -/

theorem normalizePathname_shape (p : Str) :
    normalizePathname p = [ '/' ] ∨
    ((normalizePathname p).head? = some '/' ∧ (normalizePathname p).getLast? ≠ some '/') := by
  unfold normalizePathname
  split
  · left; rfl
  · rename_i hp
    by_cases hne :
        dropTrailing (fun c => c == '/')
          (if p.head? = some '/' then p else '/' :: p) = []
    · rw [if_pos hne]
      left; rfl
    · rw [if_neg hne]
      right
      constructor
      · rw [dropTrailing_head hne]
        split
        · assumption
        · rfl
      · intro hlast
        have := dropTrailing_getLast hlast
        simp at this

theorem normalizePathname_of_shape {r : Str} (h1 : r.head? = some '/')
    (h2 : r.getLast? ≠ some '/') : normalizePathname r = r := by
  unfold normalizePathname
  by_cases hr : r = [ '/' ]
  · rw [hr] at h2
    simp at h2
  · have hrne : r ≠ [] := by
      intro h0
      rw [h0] at h1
      simp at h1
    rw [if_neg (by simp [hrne, hr])]
    rw [if_pos h1]
    have hself : dropTrailing (fun c => c == '/') r = r := by
      apply dropTrailing_eq_self
      intro a ha
      have : a ≠ '/' := by
        intro h0
        rw [h0] at ha
        exact h2 ha
      simp [this]
    simp only [hself, if_neg hrne]

/-- C4 counterexample: on the input `"//x"` the normalizer returns
`"//x"`, which starts with two slashes, so the result is neither `"/"`
nor a string with exactly one leading slash. -/
theorem claim_C4_counterexample :
    ¬ exactlyOneLeadingSlashShape (normalizePathname ( "//x".toList)) := by
  decide

/-- C4 (amended): `normalizePathname` is idempotent, and its result is
always either `"/"` or a string that starts with a leading slash (possibly
more than one, since inner duplicate slashes are preserved) and does not
end with a trailing slash. -/
theorem claim_C4 (p : Str) :
    normalizePathname (normalizePathname p) = normalizePathname p ∧
    (normalizePathname p = [ '/' ] ∨
      ((normalizePathname p).head? = some '/' ∧
        (normalizePathname p).getLast? ≠ some '/')) := by
  refine ⟨?_, normalizePathname_shape p⟩
  rcases normalizePathname_shape p with h | ⟨h1, h2⟩
  · rw [h]; decide
  · exact normalizePathname_of_shape h1 h2

/-! ### Decoding and encoding lemmas -/

theorem percentTokens_cons_ne {c : Char} {rest : Str} (hc : ¬ c = '%') :
    percentTokens (c :: rest) = (percentTokens rest).map (fun ts => Sum.inl c :: ts) := by
  cases rest with
  | nil => simp only [percentTokens, if_neg hc]
  | cons x rest2 =>
    cases rest2 with
    | nil => simp only [percentTokens, if_neg hc]
    | cons y rest3 => simp only [percentTokens, if_neg hc]

theorem percentTokens_of_no_percent {s : Str} (h : '%' ∉ s) :
    percentTokens s = some (s.map Sum.inl) := by
  induction s with
  | nil => rfl
  | cons c rest ih =>
    have hc : ¬ c = '%' := by
      intro h0
      exact h (h0 ▸ List.mem_cons_self c rest)
    have hr : '%' ∉ rest := fun hm => h (List.mem_cons_of_mem _ hm)
    rw [List.map_cons, percentTokens_cons_ne hc, ih hr]
    rfl

theorem decodeTokens_map_inl (s : Str) : decodeTokens none (s.map Sum.inl) = some s := by
  induction s with
  | nil => rfl
  | cons c rest ih =>
    have hstep : decodeTokens none (Sum.inl c :: rest.map Sum.inl) =
        (decodeTokens none (rest.map Sum.inl)).map (fun r => c :: r) := rfl
    rw [List.map_cons, hstep, ih]
    rfl

theorem jsDecode_of_no_percent {s : Str} (h : '%' ∉ s) :
    jsDecodeURIComponent s = some s := by
  unfold jsDecodeURIComponent
  rw [percentTokens_of_no_percent h]
  simpa using decodeTokens_map_inl s

theorem percentTokens_ne_nil {s : Str} {ts : List (Sum Char Nat)}
    (hs : s ≠ []) (h : percentTokens s = some ts) : ts ≠ [] := by
  cases s with
  | nil => exact absurd rfl hs
  | cons c rest =>
    by_cases hc : c = '%'
    · subst hc
      rcases rest with _ | ⟨x, _ | ⟨y, rest'⟩⟩
      · exact Option.noConfusion h
      · exact Option.noConfusion h
      · have h' :
            (match hexVal x, hexVal y, percentTokens rest' with
             | some a, some b, some ts2 => some (Sum.inr (16 * a + b) :: ts2)
             | _, _, _ => none) = some ts := h
        split at h'
        · cases h'
          simp
        · exact Option.noConfusion h'
    · rw [percentTokens_cons_ne hc] at h
      simp only [Option.map_eq_some'] at h
      obtain ⟨a, -, rfl⟩ := h
      simp

theorem decodeTokens_some_ne_nil :
    ∀ (ts : List (Sum Char Nat)) (st : Nat × Nat × Nat × Nat) {r : Str},
      decodeTokens (some st) ts = some r → r ≠ [] := by
  intro ts
  induction ts with
  | nil =>
    intro st r h
    exact Option.noConfusion h
  | cons t ts ih =>
    intro st r h
    obtain ⟨need, acc, lo, hi⟩ := st
    cases t with
    | inl c => exact Option.noConfusion h
    | inr b =>
      have h' :
          (if lo ≤ b ∧ b ≤ hi then
            if need = 1 then
              (decodeTokens none ts).map (fun r => Char.ofNat (acc * 64 + (b - 128)) :: r)
            else decodeTokens (some (need - 1, acc * 64 + (b - 128), 128, 191)) ts
          else none) = some r := h
      split at h'
      · split at h'
        · simp only [Option.map_eq_some'] at h'
          obtain ⟨a, -, rfl⟩ := h'
          simp
        · exact ih _ h'
      · exact Option.noConfusion h'

theorem decodeTokens_ne_nil {ts : List (Sum Char Nat)} {r : Str}
    (hts : ts ≠ []) (h : decodeTokens none ts = some r) : r ≠ [] := by
  cases ts with
  | nil => exact absurd rfl hts
  | cons t ts' =>
    cases t with
    | inl c =>
      have h' : (decodeTokens none ts').map (fun r => c :: r) = some r := h
      simp only [Option.map_eq_some'] at h'
      obtain ⟨a, -, rfl⟩ := h'
      simp
    | inr b =>
      have h' :
          (if b < 128 then (decodeTokens none ts').map (fun r => Char.ofNat b :: r)
           else if 194 ≤ b ∧ b ≤ 223 then decodeTokens (some (1, b - 192, 128, 191)) ts'
           else if 224 ≤ b ∧ b ≤ 239 then
             decodeTokens
               (some (2, b - 224, if b = 224 then 160 else 128,
                 if b = 237 then 159 else 191)) ts'
           else if 240 ≤ b ∧ b ≤ 244 then
             decodeTokens
               (some (3, b - 240, if b = 240 then 144 else 128,
                 if b = 244 then 143 else 191)) ts'
           else none) = some r := h
      split at h'
      · simp only [Option.map_eq_some'] at h'
        obtain ⟨a, -, rfl⟩ := h'
        simp
      · split at h'
        · exact decodeTokens_some_ne_nil ts' _ h'
        · split at h'
          · exact decodeTokens_some_ne_nil ts' _ h'
          · split at h'
            · exact decodeTokens_some_ne_nil ts' _ h'
            · exact Option.noConfusion h'

theorem encodeURIComponent_eq_self {s : Str} (h : ∀ c ∈ s, isUnreservedURI c) :
    encodeURIComponent s = s := by
  induction s with
  | nil => rfl
  | cons c rest ih =>
    have h1 : isUnreservedURI c := h c (List.mem_cons_self c rest)
    have h2 : encodeURIComponent rest = rest :=
      ih (fun x hx => h x (List.mem_cons_of_mem _ hx))
    simp only [encodeURIComponent, List.map_cons, List.flatten_cons] at h2 ⊢
    rw [if_pos h1, h2]
    rfl

theorem matchPortfolioRegex_some {p seg : Str} (h : matchPortfolioRegex p = some seg) :
    PROJECT_PATH_PREFIX.isPrefixOf p = true ∧ seg ≠ [] ∧ ∀ c ∈ seg, c ≠ '/' := by
  unfold matchPortfolioRegex at h
  split at h
  · rename_i hpre
    refine ⟨hpre, ?_⟩
    unfold portfolioSegment at h
    split at h
    · rename_i hcond
      cases h
      exact hcond
    · cases h
  · cases h

theorem getProjectSlug_ne_nil {p s : Str} (h : getProjectSlugFromPathname p = some s) :
    s ≠ [] := by
  unfold getProjectSlugFromPathname at h
  cases hm : matchPortfolioRegex p with
  | none => rw [hm] at h; cases h
  | some seg =>
    rw [hm] at h
    cases h
    obtain ⟨-, hne, -⟩ := matchPortfolioRegex_some hm
    unfold decodeURIComponentOrSelf
    cases hd : jsDecodeURIComponent seg with
    | none => simpa [lowerStr] using hne
    | some r =>
      have hr : r ≠ [] := by
        unfold jsDecodeURIComponent at hd
        cases hpt : percentTokens seg with
        | none => rw [hpt] at hd; cases hd
        | some ts =>
          rw [hpt] at hd
          simp only [Option.some_bind] at hd
          exact decodeTokens_ne_nil (percentTokens_ne_nil hne hpt) hd
      simpa [lowerStr] using hr

theorem isProjectRoute_of_slug {p s : Str} (h : getProjectSlugFromPathname p = some s) :
    isProjectRoute p = true := by
  unfold getProjectSlugFromPathname at h
  cases hm : matchPortfolioRegex p with
  | none => rw [hm] at h; cases h
  | some seg => exact (matchPortfolioRegex_some hm).1

/-! ### Characterization of the portfolio-path regex -/

theorem matchPortfolioRegex_eq_some_iff {p seg : Str} :
    matchPortfolioRegex p = some seg ↔
      seg ≠ [] ∧ '/' ∉ seg ∧
      (p = PROJECT_PATH_PREFIX ++ seg ∨ p = PROJECT_PATH_PREFIX ++ seg ++ [ '/' ]) := by
  constructor
  · intro h
    unfold matchPortfolioRegex at h
    split at h
    · rename_i hpre
      obtain ⟨t, ht⟩ := List.isPrefixOf_iff_prefix.mp hpre
      have hdrop : p.drop PROJECT_PATH_PREFIX.length = t := by
        rw [← ht, List.drop_left]
      rw [hdrop] at h
      unfold portfolioSegment at h
      split at h
      · rename_i hcond
        cases h
        refine ⟨hcond.1, ?_, ?_⟩
        · intro hmem
          exact hcond.2 '/' hmem rfl
        · unfold portfolioCore at hcond ⊢
          split at hcond
          · rename_i hlast
            obtain ⟨ys, rfl⟩ := List.getLast?_eq_some_iff.mp hlast
            right
            rw [← ht, List.dropLast_concat, ← List.append_assoc, if_pos hlast]
          · rename_i hlast
            left
            rw [← ht, if_neg hlast]
      · exact Option.noConfusion h
    · exact Option.noConfusion h
  · rintro ⟨h1, h2, h3 | h3⟩
    · subst h3
      unfold matchPortfolioRegex
      rw [if_pos ( List.isPrefixOf_iff_prefix.mpr ⟨seg, rfl⟩), List.drop_left]
      unfold portfolioSegment portfolioCore
      have hlast : seg.getLast? ≠ some '/' := by
        intro hl
        exact h2 (List.mem_of_getLast?_eq_some hl)
      rw [if_neg hlast]
      rw [if_pos ⟨h1, fun c hc he => h2 (he ▸ hc)⟩]
    · subst h3
      unfold matchPortfolioRegex
      rw [List.append_assoc]
      rw [if_pos ( List.isPrefixOf_iff_prefix.mpr ⟨seg ++ [ '/' ], rfl⟩), List.drop_left]
      unfold portfolioSegment portfolioCore
      rw [if_pos (List.getLast?_concat seg)]
      rw [List.dropLast_concat]
      rw [if_pos ⟨h1, fun c hc he => h2 (he ▸ hc)⟩]

/-- C7: `getProjectSlugFromPathname` returns a slug exactly for paths of
the shape `/portfolio/<segment>` where the segment is non-empty and
slash-free, with an optional single trailing slash allowed; the returned
slug is the percent-decoded (with fallback to the raw segment on a decode
error), lower-cased segment.  Every path not of this exact shape yields
`none`. -/
theorem claim_C7 (p s : Str) :
    getProjectSlugFromPathname p = some s ↔
      ∃ seg, seg ≠ [] ∧ '/' ∉ seg ∧
        (p = PROJECT_PATH_PREFIX ++ seg ∨ p = PROJECT_PATH_PREFIX ++ seg ++ [ '/' ]) ∧
        s = lowerStr (decodeURIComponentOrSelf seg) := by
  unfold getProjectSlugFromPathname
  constructor
  · intro h
    cases hm : matchPortfolioRegex p with
    | none => rw [hm] at h; exact Option.noConfusion h
    | some seg =>
      rw [hm] at h
      cases h
      obtain ⟨h1, h2, h3⟩ := matchPortfolioRegex_eq_some_iff.mp hm
      exact ⟨seg, h1, h2, h3, rfl⟩
  · rintro ⟨seg, h1, h2, h3, rfl⟩
    rw [matchPortfolioRegex_eq_some_iff.mpr ⟨h1, h2, h3⟩]

/-- C7 witness: the path `/portfolio/Shoot-1/` matches the shape with
segment `Shoot-1` and the slug is the lower-cased decoded segment. -/
theorem claim_C7_witness :
    getProjectSlugFromPathname c7Path = some ( "shoot-1".toList) :=
  (claim_C7 c7Path ( "shoot-1".toList)).mpr
    ⟨c7Seg, by decide, by decide, Or.inr (by decide), by decide⟩

/-! ### Route-slug character lemmas -/

theorem collapseNonAlnum_chars {s : Str} : ∀ c ∈ collapseNonAlnum s, isSlugAlnum c ∨ c = '-' := by
  induction s with
  | nil => simp [collapseNonAlnum]
  | cons x rest ih =>
    intro c hc
    simp only [collapseNonAlnum] at hc
    split at hc
    · rcases List.mem_cons.mp hc with rfl | hc'
      · left; assumption
      · exact ih c hc'
    · split at hc
      · exact ih c hc
      · rcases List.mem_cons.mp hc with rfl | hc'
        · right; rfl
        · exact ih c hc'

theorem toRouteSlug_chars {v : Str} : ∀ c ∈ toRouteSlug v, isSlugAlnum c ∨ c = '-' := by
  intro c hc
  unfold toRouteSlug trimHyphens at hc
  have h1 : c ∈ (collapseNonAlnum (replaceAmp (lowerStr v))).dropWhile (fun c => c == '-') :=
    (dropTrailing_sublist _ _).mem hc
  have h2 : c ∈ collapseNonAlnum (replaceAmp (lowerStr v)) :=
    (List.dropWhile_sublist _).mem h1
  exact collapseNonAlnum_chars c h2

theorem jsToLowerChar_eq_self_of_slugChar {c : Char} (h : isSlugAlnum c ∨ c = '-') :
    jsToLowerChar c = c := by
  unfold jsToLowerChar
  rcases h with h | rfl
  · rcases h with ⟨h1, h2⟩ | ⟨h1, h2⟩ <;> rw [if_neg (by omega)]
  · rw [if_neg (by decide)]

theorem slugChar_unreserved {c : Char} (h : isSlugAlnum c ∨ c = '-') : isUnreservedURI c := by
  rcases h with h | rfl
  · rcases h with h | h
    · exact Or.inr (Or.inl h)
    · exact Or.inr (Or.inr (Or.inl h))
  · exact Or.inr (Or.inr (Or.inr (Or.inl rfl)))

theorem slugChar_ne {c : Char} (h : isSlugAlnum c ∨ c = '-') : c ≠ '%' ∧ c ≠ '/' := by
  rcases h with h | rfl
  · constructor <;> rintro rfl <;> exact absurd h (by decide)
  · constructor <;> decide

theorem lowerStr_eq_self_of_slugChars {s : Str} (h : ∀ c ∈ s, isSlugAlnum c ∨ c = '-') :
    lowerStr s = s := by
  induction s with
  | nil => rfl
  | cons c rest ih =>
    have h1 := jsToLowerChar_eq_self_of_slugChar (h c (List.mem_cons_self c rest))
    have h2 : lowerStr rest = rest := ih (fun x hx => h x (List.mem_cons_of_mem _ hx))
    unfold lowerStr at h2 ⊢
    rw [List.map_cons, h1, h2]

theorem slug_roundtrip {s : Str} (hne : s ≠ [])
    (hch : ∀ c ∈ s, isSlugAlnum c ∨ c = '-') :
    getProjectSlugFromPathname (getProjectPath s) = some s := by
  have henc : encodeURIComponent s = s :=
    encodeURIComponent_eq_self (fun c hc => slugChar_unreserved (hch c hc))
  have hpath : getProjectPath s = PROJECT_PATH_PREFIX ++ s := by
    unfold getProjectPath
    rw [henc]
  rw [hpath]
  unfold getProjectSlugFromPathname
  rw [matchPortfolioRegex_eq_some_iff.mpr
    ⟨hne, fun hmem => (slugChar_ne (hch _ hmem)).2 rfl, Or.inl rfl⟩]
  show some (lowerStr (decodeURIComponentOrSelf s)) = some s
  have hdec : decodeURIComponentOrSelf s = s := by
    unfold decodeURIComponentOrSelf
    rw [jsDecode_of_no_percent (fun hmem => (slugChar_ne (hch _ hmem)).1 rfl)]
    rfl
  rw [hdec, lowerStr_eq_self_of_slugChars hch]

/-! ### buildShoots membership lemmas -/

theorem buildProject_fields {α : Type} {k : Str} {files : List (FileEntry α)}
    {proj : Project α} (h : buildProject k files = some proj) :
    proj.id = k ∧
    proj.routeSlug = toRouteSlug (match parseShootFolder k with
      | some g => g.2.2.2
      | none => k) := by
  unfold buildProject at h
  split at h
  · exact Option.noConfusion h
  · cases h
    exact ⟨rfl, rfl⟩

theorem buildShoots_mem {α : Type} {entries : List (Str × α)} {proj : Project α}
    (h : proj ∈ buildShoots entries) :
    ∃ kv ∈ (collectBuckets entries).shootsByFolder, buildProject kv.1 kv.2 = some proj := by
  unfold buildShoots at h
  rw [List.filterMap_map, List.mem_filterMap] at h
  obtain ⟨kv, hkv, hbuild⟩ := h
  exact ⟨kv, (List.mem_insertionSort _).mp hkv, hbuild⟩

/-- C5 counterexample: the input mapping `c5Entries` contains the single
shoot folder `2026-01-01-_`, whose suffix `_` collapses and trims to the
empty route slug; the built path for that slug is `/portfolio/`, which
parses back to `none`, not to the slug, so the round trip fails for this
Project. -/
theorem claim_C5_counterexample :
    (buildShoots c5Entries).map Project.routeSlug = [ ([] : Str) ] ∧
    getProjectSlugFromPathname (getProjectPath ([] : Str)) = none := by
  decide

/-- C5 (amended): for every Project built by the grouper whose `routeSlug`
is non-empty, parsing the built path round-trips:
`getProjectSlugFromPathname (getProjectPath proj.routeSlug) = some
proj.routeSlug` (a folder suffix that normalizes to the empty slug builds
the path `/portfolio/`, which parses to `none`). -/
theorem claim_C5 {α : Type} (entries : List (Str × α)) (proj : Project α)
    (hmem : proj ∈ buildShoots entries) (hne : proj.routeSlug ≠ []) :
    getProjectSlugFromPathname (getProjectPath proj.routeSlug) = some proj.routeSlug := by
  obtain ⟨kv, -, hbuild⟩ := buildShoots_mem hmem
  obtain ⟨-, hslug⟩ := buildProject_fields hbuild
  apply slug_roundtrip hne
  rw [hslug]
  exact toRouteSlug_chars

/-- C5 witness: the Project built from the folder `2026-01-15-editorial`
has the non-empty routeSlug `editorial` and its path round-trips. -/
theorem claim_C5_witness :
    c5wProj ∈ buildShoots c5wEntries ∧ c5wProj.routeSlug ≠ [] ∧
    getProjectSlugFromPathname (getProjectPath c5wProj.routeSlug) = some c5wProj.routeSlug :=
  ⟨by decide, by decide, claim_C5 c5wEntries c5wProj (by decide) (by decide)⟩

theorem pushToFolder_keys {α : Type} {m : List (Str × List (FileEntry α))} {k : Str}
    {v : FileEntry α} {kv : Str × List (FileEntry α)} (h : kv ∈ pushToFolder m k v) :
    (∃ p ∈ m, kv.1 = p.1) ∨ kv.1 = k := by
  unfold pushToFolder at h
  split at h
  · rw [List.mem_map] at h
    obtain ⟨p, hp, hpe⟩ := h
    left
    refine ⟨p, hp, ?_⟩
    split at hpe <;> rw [← hpe]
  · rw [List.mem_append] at h
    rcases h with h | h
    · left
      exact ⟨kv, h, rfl⟩
    · right
      rw [List.mem_singleton] at h
      rw [h]

theorem classifyStep_keys {α : Type} {b : Buckets α} {path : Str} {loader : α}
    (hb : ∀ kv ∈ b.shootsByFolder, (parseShootFolder kv.1).isSome = true) :
    ∀ kv ∈ (classifyStep b path loader).shootsByFolder,
      (parseShootFolder kv.1).isSome = true := by
  intro kv hkv
  unfold classifyStep at hkv
  split at hkv
  · exact hb kv hkv
  · simp only [] at hkv
    split at hkv
    · exact hb kv hkv
    · split at hkv
      · exact hb kv hkv
      · split at hkv
        · rename_i hsome
          rcases pushToFolder_keys hkv with ⟨p, hp, he⟩ | he
          · rw [he]
            exact hb p hp
          · rw [he]
            exact hsome
        · exact hb kv hkv

theorem collectBuckets_keys {α : Type} (entries : List (Str × α)) :
    ∀ kv ∈ (collectBuckets entries).shootsByFolder, (parseShootFolder kv.1).isSome = true := by
  suffices H : ∀ (l : List (Str × α)) (b : Buckets α),
      (∀ kv ∈ b.shootsByFolder, (parseShootFolder kv.1).isSome = true) →
      ∀ kv ∈ (l.foldl (fun b e => classifyStep b e.1 e.2) b).shootsByFolder,
        (parseShootFolder kv.1).isSome = true by
    exact H entries { shootsByFolder := [], digitals := [] } (by simp)
  intro l
  induction l with
  | nil => intro b hb kv hkv; exact hb kv hkv
  | cons e l ih =>
    intro b hb kv hkv
    exact ih (classifyStep b e.1 e.2) (classifyStep_keys hb) kv hkv

theorem trimHyphens_head {s : Str} : (trimHyphens s).head? ≠ some '-' := by
  unfold trimHyphens
  by_cases hn : dropTrailing (fun c => c == '-') (s.dropWhile (fun c => c == '-')) = []
  · rw [hn]
    simp
  · rw [dropTrailing_head hn]
    intro hhead
    have := List.head?_dropWhile_not (fun c => c == '-') s
    rw [hhead] at this
    simp at this

theorem trimHyphens_last {s : Str} : (trimHyphens s).getLast? ≠ some '-' := by
  unfold trimHyphens
  intro hlast
  have := dropTrailing_getLast hlast
  simp at this

theorem isSlugAlnum_ne_hyphen {c : Char} (h : isSlugAlnum c) : c ≠ '-' := by
  intro h0
  rw [h0] at h
  exact absurd h (by decide)

theorem collapseNonAlnum_chain {s : Str} :
    List.Chain' (fun a b => ¬ (a = '-' ∧ b = '-')) (collapseNonAlnum s) := by
  induction s with
  | nil => simp [collapseNonAlnum]
  | cons x rest ih =>
    simp only [collapseNonAlnum]
    split
    · rename_i hx
      rw [List.chain'_cons']
      refine ⟨?_, ih⟩
      intro y _
      intro hcon
      exact isSlugAlnum_ne_hyphen hx hcon.1
    · split
      · exact ih
      · rename_i hhead
        rw [List.chain'_cons']
        refine ⟨?_, ih⟩
        intro y hy
        intro hcon
        rw [hcon.2] at hy
        exact hhead hy

theorem toRouteSlug_chain {v : Str} :
    List.Chain' (fun a b => ¬ (a = '-' ∧ b = '-')) (toRouteSlug v) := by
  unfold toRouteSlug trimHyphens
  obtain ⟨t, ht⟩ := dropTrailing_append (fun c => c == '-')
    ((collapseNonAlnum (replaceAmp (lowerStr v))).dropWhile (fun c => c == '-'))
  have hchain : List.Chain' (fun a b => ¬ (a = '-' ∧ b = '-'))
      ((collapseNonAlnum (replaceAmp (lowerStr v))).dropWhile (fun c => c == '-')) :=
    List.Chain'.suffix collapseNonAlnum_chain (List.dropWhile_suffix _)
  exact List.Chain'.prefix hchain ⟨t, ht.symm⟩

/-- C8: every built Project's `routeSlug` equals the folder name's
free-text suffix transformed by `toRouteSlug` — lower-casing, replacing
each `&` with `" and "`, collapsing every maximal run of non-alphanumeric
characters to a single hyphen, and trimming leading and trailing hyphens.
Consequently the slug contains only lower-case alphanumerics and hyphens,
never starts or ends with a hyphen, and never contains two adjacent
hyphens. -/
theorem claim_C8 {α : Type} (entries : List (Str × α)) (proj : Project α)
    (hmem : proj ∈ buildShoots entries) :
    ∃ y m d sfx, parseShootFolder proj.id = some (y, m, d, sfx) ∧
      proj.routeSlug = toRouteSlug sfx ∧
      (∀ c ∈ proj.routeSlug, isSlugAlnum c ∨ c = '-') ∧
      proj.routeSlug.head? ≠ some '-' ∧
      proj.routeSlug.getLast? ≠ some '-' ∧
      List.Chain' (fun a b => ¬ (a = '-' ∧ b = '-')) proj.routeSlug := by
  obtain ⟨kv, hkv, hbuild⟩ := buildShoots_mem hmem
  obtain ⟨hid, hslug⟩ := buildProject_fields hbuild
  have hsome := collectBuckets_keys entries kv hkv
  rw [← hid] at hsome hslug
  cases hp : parseShootFolder proj.id with
  | none =>
    rw [hp] at hsome
    simp at hsome
  | some g =>
    obtain ⟨y, m, d, sfx⟩ := g
    rw [hp] at hslug
    have hslug' : proj.routeSlug = toRouteSlug sfx := hslug
    refine ⟨y, m, d, sfx, rfl, hslug', ?_, ?_, ?_, ?_⟩
    · rw [hslug']
      exact toRouteSlug_chars
    · rw [hslug']
      exact trimHyphens_head
    · rw [hslug']
      exact trimHyphens_last
    · rw [hslug']
      exact toRouteSlug_chain

/-- C8 witness: the Project built from the folder `2026-02-03-Urban & Night`
has routeSlug `urban-and-night`, derived from the suffix by the slug
pipeline. -/
theorem claim_C8_witness :
    c8Proj ∈ buildShoots c8Entries ∧
    (∃ y m d sfx, parseShootFolder c8Proj.id = some (y, m, d, sfx) ∧
      c8Proj.routeSlug = toRouteSlug sfx ∧
      (∀ c ∈ c8Proj.routeSlug, isSlugAlnum c ∨ c = '-') ∧
      c8Proj.routeSlug.head? ≠ some '-' ∧
      c8Proj.routeSlug.getLast? ≠ some '-' ∧
      List.Chain' (fun a b => ¬ (a = '-' ∧ b = '-')) c8Proj.routeSlug) :=
  ⟨by decide, claim_C8 c8Entries c8Proj (by decide)⟩

/-! ### Cover and gallery lemmas -/

theorem buildProject_eq {α : Type} (folderName : Str) {files : List (FileEntry α)}
    {first : FileEntry α} {rest : List (FileEntry α)}
    (hs : sortedFilesOf files = first :: rest) :
    ∃ proj, buildProject folderName files = some proj ∧
      proj.image = (coverFileOf (first :: rest) first).loader ∧
      proj.gallery =
        (galleryFilesOf (first :: rest) (coverFileOf (first :: rest) first)).map
          (fun f => f.loader) := by
  unfold buildProject
  rw [hs]
  exact ⟨_, rfl, rfl, rfl⟩

theorem galleryFilesOf_eq {α : Type} {l1 l2 : List (FileEntry α)} {cover : FileEntry α}
    (hnd : ((l1 ++ cover :: l2).map FileEntry.path).Nodup) :
    galleryFilesOf (l1 ++ cover :: l2) cover = l1 ++ l2 := by
  rw [List.map_append, List.map_cons] at hnd
  have hdisj := List.disjoint_of_nodup_append hnd
  have hl2 : cover.path ∉ l2.map FileEntry.path := by
    have := hnd.of_append_right
    exact (List.nodup_cons.mp this).1
  unfold galleryFilesOf
  rw [List.filter_append, List.filter_cons]
  have hcov : (!(cover.path == cover.path)) = false := by simp
  rw [hcov]
  simp only [Bool.false_eq_true, if_false]
  have hf1 : ∀ f ∈ l1, (!(f.path == cover.path)) = true := by
    intro f hf
    have hne : f.path ≠ cover.path := by
      intro he
      exact hdisj (List.mem_map_of_mem FileEntry.path hf)
        (he ▸ List.mem_cons_self cover.path (l2.map FileEntry.path))
    simp [hne]
  have hf2 : ∀ f ∈ l2, (!(f.path == cover.path)) = true := by
    intro f hf
    have hne : f.path ≠ cover.path := by
      intro he
      exact hl2 (he ▸ List.mem_map_of_mem FileEntry.path hf)
    simp [hne]
  rw [List.filter_eq_self.mpr hf1, List.filter_eq_self.mpr hf2]

/-- C1: for every shoot folder whose files have pairwise-distinct paths,
the chosen cover together with the gallery accounts for each of the
folder's files exactly once (the cover and the gallery files are a
permutation of the folder's files), and the gallery sequence equals the
ascending case-insensitive filename ordering of the folder's files with
the cover removed. -/
theorem claim_C1 {α : Type} (folderName : Str) (files : List (FileEntry α))
    (hnodup : (files.map FileEntry.path).Nodup) (hne : files ≠ []) :
    ∃ proj cover l1 l2,
      buildProject folderName files = some proj ∧
      sortedFilesOf files = l1 ++ cover :: l2 ∧
      proj.image = cover.loader ∧
      proj.gallery = (l1 ++ l2).map FileEntry.loader ∧
      List.Perm (cover :: (l1 ++ l2)) files := by
  have hperm : List.Perm (sortedFilesOf files) files := List.perm_insertionSort _ files
  cases hs : sortedFilesOf files with
  | nil =>
    rw [hs] at hperm
    exact absurd hperm.symm.eq_nil hne
  | cons first rest =>
    rw [hs] at hperm
    have hcmem : coverFileOf (first :: rest) first ∈ first :: rest := by
      unfold coverFileOf
      cases hfind : (first :: rest).find? (fun f => decide (coverRegexTest f.fileName)) with
      | none => exact List.mem_cons_self first rest
      | some c =>
        have := List.mem_of_find?_eq_some hfind
        simpa using this
    obtain ⟨cover, hcovdef⟩ : ∃ c, coverFileOf (first :: rest) first = c := ⟨_, rfl⟩
    rw [hcovdef] at hcmem
    obtain ⟨l1, l2, hsplit⟩ := List.append_of_mem hcmem
    have hnds : ((first :: rest).map FileEntry.path).Nodup := by
      have hpm := hperm.map FileEntry.path
      exact (List.Perm.nodup_iff hpm).mpr hnodup
    rw [hsplit] at hnds
    obtain ⟨proj, hbp, himg, hgal⟩ := buildProject_eq folderName hs
    rw [hcovdef] at himg hgal
    refine ⟨proj, cover, l1, l2, hbp, hsplit, himg, ?_, ?_⟩
    · rw [hgal, hsplit, galleryFilesOf_eq hnds]
    · have hp2 : List.Perm (l1 ++ cover :: l2) files := by
        rw [← hsplit]
        exact hperm
      exact List.Perm.trans List.perm_middle.symm hp2

/-- C1 witness: a two-file folder with distinct paths is split into a
cover and a one-file gallery that together are a permutation of the
folder's files. -/
theorem claim_C1_witness :
    ((c1Files.map FileEntry.path).Nodup ∧ c1Files ≠ []) ∧
    (∃ proj cover l1 l2,
      buildProject ( "2026-01-01-test".toList) c1Files = some proj ∧
      sortedFilesOf c1Files = l1 ++ cover :: l2 ∧
      proj.image = cover.loader ∧
      proj.gallery = (l1 ++ l2).map FileEntry.loader ∧
      List.Perm (cover :: (l1 ++ l2)) c1Files) :=
  ⟨⟨by decide, by decide⟩,
    claim_C1 ( "2026-01-01-test".toList) c1Files (by decide) (by decide)⟩

/-- C2: for every folder whose sorted file list is non-empty, if some file
matches `cover.(jpg|jpeg|png)` case-insensitively then the cover is the
first such file in sorted order (regardless of its position), and if no
file matches then the cover is the lexically-first file of the folder. -/
theorem claim_C2 {α : Type} (files : List (FileEntry α)) (first : FileEntry α)
    (rest : List (FileEntry α)) (hs : sortedFilesOf files = first :: rest) :
    ((∃ f ∈ files, coverRegexTest f.fileName) →
      ∃ l1 l2, first :: rest = l1 ++ coverFileOf (first :: rest) first :: l2 ∧
        coverRegexTest (coverFileOf (first :: rest) first).fileName ∧
        ∀ f ∈ l1, ¬ coverRegexTest f.fileName) ∧
    ((∀ f ∈ files, ¬ coverRegexTest f.fileName) →
      coverFileOf (first :: rest) first = first) := by
  have hperm : List.Perm (sortedFilesOf files) files := List.perm_insertionSort _ files
  rw [hs] at hperm
  constructor
  · rintro ⟨f, hf, hcov⟩
    have hfs : f ∈ first :: rest := hperm.mem_iff.mpr hf
    cases hfind : (first :: rest).find? (fun f => decide (coverRegexTest f.fileName)) with
    | none =>
      rw [List.find?_eq_none] at hfind
      exact absurd (decide_eq_true hcov) (hfind f hfs)
    | some c =>
      obtain ⟨hc, l1, l2, hsplit, hbefore⟩ := List.find?_eq_some.mp hfind
      refine ⟨l1, l2, ?_, ?_, ?_⟩
      · unfold coverFileOf
        rw [hfind]
        exact hsplit
      · unfold coverFileOf
        rw [hfind]
        exact of_decide_eq_true hc
      · intro g hg hgc
        have hb := hbefore g hg
        simp at hb
        exact hb hgc
  · intro hnone
    unfold coverFileOf
    rw [List.find?_eq_none.mpr ?_]
    · rfl
    · intro x hx
      simp only [decide_eq_true_eq]
      exact hnone x (hperm.mem_iff.mp hx)

/-- C2 witness: in a folder containing `Cover.PNG` and `z.jpg`, the file
`Cover.PNG` is selected as the cover, preceded by no non-matching files in
sorted order. -/
theorem claim_C2_witness :
    sortedFilesOf c2Files = c2First :: [c2Second] ∧
    (∃ l1 l2, c2First :: [c2Second] =
        l1 ++ coverFileOf (c2First :: [c2Second]) c2First :: l2 ∧
      coverRegexTest (coverFileOf (c2First :: [c2Second]) c2First).fileName ∧
      ∀ f ∈ l1, ¬ coverRegexTest f.fileName) :=
  ⟨by decide,
    (claim_C2 c2Files c2First [c2Second] (by decide)).1 ⟨c2First, by decide, by decide⟩⟩

/-! ### Folder comparator lemmas -/

theorem folderCompare_ss {a b : Str} {da db : Int} (ha : getFolderDateValue a = some da)
    (hb : getFolderDateValue b = some db) :
    folderCompare a b = if db - da ≠ 0 then db - da else jsLocaleCompareBase b a := by
  unfold folderCompare
  rw [ha, hb]

theorem folderCompare_sn {a b : Str} {da : Int} (ha : getFolderDateValue a = some da)
    (hb : getFolderDateValue b = none) : folderCompare a b = -1 := by
  unfold folderCompare
  rw [ha, hb]

theorem folderCompare_ns {a b : Str} {db : Int} (ha : getFolderDateValue a = none)
    (hb : getFolderDateValue b = some db) : folderCompare a b = 1 := by
  unfold folderCompare
  rw [ha, hb]

theorem folderCompare_nn {a b : Str} (ha : getFolderDateValue a = none)
    (hb : getFolderDateValue b = none) : folderCompare a b = 0 := by
  unfold folderCompare
  rw [ha, hb]

/-- The ECMAScript two-digit-year rule is observable through folder
dates: a year field `0099` denotes 1999 (`Date.UTC(99, ...)` maps to
`Date.UTC(1999, ...)`), while `0100` denotes the proleptic year 100, so a
`0099-*` folder sorts before `1950-*` and `0100-*` folders despite its
smaller literal year. -/
theorem getFolderDateValue_two_digit_year :
    getFolderDateValue ( "0099-06-01-x".toList) = some (dateUTC 1999 5 1) ∧
    folderCompare ( "0099-06-01-x".toList) ( "1950-01-01-y".toList) < 0 ∧
    folderCompare ( "0099-06-01-x".toList) ( "0100-01-01-y".toList) < 0 := by
  decide

theorem folderCompare_total (a b : Str) :
    folderCompare a b ≤ 0 ∨ folderCompare b a ≤ 0 := by
  rcases ha : getFolderDateValue a with _ | da <;> rcases hb : getFolderDateValue b with _ | db
  · rw [folderCompare_nn ha hb]
    left
    omega
  · rw [folderCompare_sn hb ha]
    right
    omega
  · rw [folderCompare_sn ha hb]
    left
    omega
  · rw [folderCompare_ss ha hb, folderCompare_ss hb ha]
    by_cases hdd : db - da = 0
    · rw [if_neg (by omega), if_neg (by omega)]
      exact jsLoc_total b a
    · rw [if_pos hdd, if_pos (by omega)]
      omega

theorem folderCompare_trans {a b c : Str} (h1 : folderCompare a b ≤ 0)
    (h2 : folderCompare b c ≤ 0) : folderCompare a c ≤ 0 := by
  rcases ha : getFolderDateValue a with _ | da <;>
    rcases hb : getFolderDateValue b with _ | db <;>
      rcases hc : getFolderDateValue c with _ | dc
  · rw [folderCompare_nn ha hc]
  · rw [folderCompare_nn ha hb] at h1
    rw [folderCompare_ns hb hc] at h2
    omega
  · rw [folderCompare_ns ha hb] at h1
    omega
  · rw [folderCompare_ns ha hb] at h1
    omega
  · rw [folderCompare_sn ha hc]
    omega
  · rw [folderCompare_sn ha hb] at h1
    rw [folderCompare_ns hb hc] at h2
    omega
  · rw [folderCompare_sn ha hc]
    omega
  · rw [folderCompare_ss ha hb] at h1
    rw [folderCompare_ss hb hc] at h2
    rw [folderCompare_ss ha hc]
    by_cases h12 : db - da = 0 <;> by_cases h23 : dc - db = 0
    · rw [if_neg (by omega)] at h1
      rw [if_neg (by omega)] at h2
      rw [if_neg (by omega)]
      exact jsLoc_trans h2 h1
    · rw [if_neg (by omega)] at h1
      rw [if_pos h23] at h2
      rw [if_pos (by omega)]
      omega
    · rw [if_pos h12] at h1
      rw [if_neg (by omega)] at h2
      rw [if_pos (by omega)]
      omega
    · rw [if_pos h12] at h1
      rw [if_pos h23] at h2
      rw [if_pos (by omega)]
      omega

/-- C3 counterexample: the dated folder names `2020-01-01-A` and
`2020-01-01-a` are distinct, both match the shoot pattern, and the
comparator returns `0` in both directions — so the comparison is not
antisymmetric, hence not a total order on such folder names. -/
theorem claim_C3_counterexample :
    cexFolderUpper ≠ cexFolderLower ∧
    (parseShootFolder cexFolderUpper).isSome = true ∧
    (parseShootFolder cexFolderLower).isSome = true ∧
    folderCompare cexFolderUpper cexFolderLower = 0 ∧
    folderCompare cexFolderLower cexFolderUpper = 0 := by
  decide

/-- C3 (amended): for folder names matching the dated-shoot pattern the
grouper's comparator orders strictly by decreasing date value — the
`Date.UTC` timestamp of the encoded date, with year fields `0000`–`0099`
interpreted as 1900–1999 by ECMAScript's `MakeFullYear` — breaking
identical-date-value ties by descending case-insensitive lexical
comparison of the full folder name; the comparison is a total preorder
(total and transitive), and it identifies exactly the pairs with equal
date values and case-insensitively equal names — so it is antisymmetric
only up to letter case, not a total order on the names themselves. -/
theorem claim_C3 (a b c : Str) (da db dc : Int)
    (ha : getFolderDateValue a = some da) (hb : getFolderDateValue b = some db)
    (_hc : getFolderDateValue c = some dc) :
    (folderCompare a b < 0 ↔
      (db < da ∨ (da = db ∧ cmpStr (lowerStr b) (lowerStr a) = Ordering.lt))) ∧
    (folderCompare a b = 0 ↔ (da = db ∧ lowerStr a = lowerStr b)) ∧
    (folderCompare a b ≤ 0 ∨ folderCompare b a ≤ 0) ∧
    (folderCompare a b ≤ 0 → folderCompare b c ≤ 0 → folderCompare a c ≤ 0) := by
  refine ⟨?_, ?_, folderCompare_total a b, fun h1 h2 => folderCompare_trans h1 h2⟩
  · rw [folderCompare_ss ha hb]
    by_cases hdd : db - da = 0
    · rw [if_neg (by omega), jsLoc_lt_iff]
      constructor
      · intro h
        exact Or.inr ⟨by omega, h⟩
      · rintro (h | ⟨h1, h2⟩)
        · omega
        · exact h2
    · rw [if_pos hdd]
      constructor
      · intro h
        left
        omega
      · rintro (h | ⟨h1, h2⟩)
        · omega
        · omega
  · rw [folderCompare_ss ha hb]
    by_cases hdd : db - da = 0
    · rw [if_neg (by omega), jsLoc_eq_iff]
      constructor
      · intro h
        exact ⟨by omega, h.symm⟩
      · rintro ⟨h1, h2⟩
        exact h2.symm
    · rw [if_pos hdd]
      constructor
      · intro h
        omega
      · rintro ⟨h1, h2⟩
        omega

/-- C3 witness: three concrete dated folder names with their encoded
dates, instantiating the comparator characterization. -/
theorem claim_C3_witness :
    (getFolderDateValue w3FolderA = some (dateUTC 2026 7 1) ∧
     getFolderDateValue w3FolderB = some (dateUTC 2026 6 15) ∧
     getFolderDateValue w3FolderC = some (dateUTC 2026 6 15)) ∧
    ((folderCompare w3FolderA w3FolderB < 0 ↔
      (dateUTC 2026 6 15 < dateUTC 2026 7 1 ∨
        (dateUTC 2026 7 1 = dateUTC 2026 6 15 ∧
          cmpStr (lowerStr w3FolderB) (lowerStr w3FolderA) = Ordering.lt))) ∧
    (folderCompare w3FolderA w3FolderB = 0 ↔
      (dateUTC 2026 7 1 = dateUTC 2026 6 15 ∧ lowerStr w3FolderA = lowerStr w3FolderB)) ∧
    (folderCompare w3FolderA w3FolderB ≤ 0 ∨ folderCompare w3FolderB w3FolderA ≤ 0) ∧
    (folderCompare w3FolderA w3FolderB ≤ 0 → folderCompare w3FolderB w3FolderC ≤ 0 →
      folderCompare w3FolderA w3FolderC ≤ 0)) :=
  ⟨⟨by decide, by decide, by decide⟩,
    claim_C3 w3FolderA w3FolderB w3FolderC (dateUTC 2026 7 1) (dateUTC 2026 6 15)
      (dateUTC 2026 6 15) (by decide) (by decide) (by decide)⟩

/-- C9: for every input mapping, the digitals output is the digitals
bucket's entries sorted by ascending case-insensitive filename and
truncated to the first 3 loaders; its length is `min 3 n` where `n` is the
number of digitals files, so a bucket with 0–2 entries yields a
correspondingly short (possibly empty) list and never an error. -/
theorem claim_C9 {α : Type} (entries : List (Str × α)) :
    (buildDigitals entries).length = min 3 (collectBuckets entries).digitals.length ∧
    ∃ s, List.Perm s (collectBuckets entries).digitals ∧
      List.Pairwise
        (fun a b : DigitalFile α => jsLocaleCompareBase a.fileName b.fileName ≤ 0) s ∧
      buildDigitals entries = (s.map DigitalFile.loader).take 3 := by
  haveI : IsTotal (DigitalFile α) digitalLe := ⟨fun a b => jsLoc_total a.fileName b.fileName⟩
  haveI : IsTrans (DigitalFile α) digitalLe := ⟨fun _ _ _ h1 h2 => jsLoc_trans h1 h2⟩
  constructor
  · unfold buildDigitals
    rw [List.length_take, List.length_map,
      (List.perm_insertionSort digitalLe (collectBuckets entries).digitals).length_eq]
  · refine ⟨List.insertionSort digitalLe (collectBuckets entries).digitals,
      List.perm_insertionSort digitalLe (collectBuckets entries).digitals, ?_, rfl⟩
    exact List.sorted_insertionSort digitalLe (collectBuckets entries).digitals

/-- C6: the router's presentation state is `home` exactly when the path is
not a portfolio path; a `detail` state always shows a Project from the
collection whose `routeSlug` equals the decoded lower-cased path segment;
when the path parses to a slug matched by no Project the state is the
distinct `notFound`; and when some Project matches the slug, the state is
a `detail` state for a matching Project.  All router functions are total,
so no error is raised. -/
theorem claim_C6 {α : Type} (shoots : List (Project α)) (pathname : Str) :
    (routerState shoots pathname = RouterState.home ↔ isProjectRoute pathname = false) ∧
    (∀ p : Project α, routerState shoots pathname = RouterState.detail p →
      p ∈ shoots ∧ getProjectSlugFromPathname pathname = some p.routeSlug) ∧
    (∀ s : Str, getProjectSlugFromPathname pathname = some s →
      (∀ p ∈ shoots, p.routeSlug ≠ s) →
      routerState shoots pathname = RouterState.notFound) ∧
    (∀ s : Str, ∀ p : Project α, getProjectSlugFromPathname pathname = some s →
      p ∈ shoots → p.routeSlug = s →
      ∃ q ∈ shoots, q.routeSlug = s ∧
        routerState shoots pathname = RouterState.detail q) := by
  refine ⟨?_, ?_, ?_, ?_⟩
  · unfold routerState
    by_cases hroute : isProjectRoute pathname
    · rw [if_pos hroute]
      constructor
      · intro h
        cases hsel : selectedProject shoots pathname <;> rw [hsel] at h <;> cases h
      · intro h
        rw [h] at hroute
        cases hroute
    · rw [if_neg hroute]
      simp only [Bool.not_eq_true] at hroute
      simp [hroute]
  · intro p h
    unfold routerState at h
    by_cases hroute : isProjectRoute pathname
    · rw [if_pos hroute] at h
      cases hsel : selectedProject shoots pathname with
      | none => rw [hsel] at h; cases h
      | some q =>
        rw [hsel] at h
        cases h
        unfold selectedProject at hsel
        cases hslug : getProjectSlugFromPathname pathname with
        | none => rw [hslug] at hsel; cases hsel
        | some s =>
          rw [hslug] at hsel
          have hsel2 : (if s = [] then none
              else shoots.find? (fun item => item.routeSlug == s)) = some p := hsel
          split at hsel2
          · cases hsel2
          · have hmem := List.mem_of_find?_eq_some hsel2
            have hpred := List.find?_some hsel2
            simp only [beq_iff_eq] at hpred
            rw [hpred]
            exact ⟨hmem, rfl⟩
    · rw [if_neg hroute] at h
      cases h
  · intro s hslug hnone
    unfold routerState
    rw [if_pos (isProjectRoute_of_slug hslug)]
    have hsel : selectedProject shoots pathname = none := by
      unfold selectedProject
      rw [hslug]
      show (if s = [] then none
          else shoots.find? (fun item => item.routeSlug == s)) = none
      by_cases hs0 : s = []
      · rw [if_pos hs0]
      · rw [if_neg hs0, List.find?_eq_none]
        intro x hx
        simpa using hnone x hx
    rw [hsel]
  · intro s p hslug hp hps
    have hne := getProjectSlug_ne_nil hslug
    cases hfind : shoots.find? (fun item => item.routeSlug == s) with
    | none =>
      rw [List.find?_eq_none] at hfind
      exact absurd (by simp [hps]) (hfind p hp)
    | some q =>
      have hqmem := List.mem_of_find?_eq_some hfind
      have hq : q.routeSlug = s := by
        have := List.find?_some hfind
        simpa using this
      refine ⟨q, hqmem, hq, ?_⟩
      unfold routerState
      rw [if_pos (isProjectRoute_of_slug hslug)]
      have hsel : selectedProject shoots pathname = some q := by
        unfold selectedProject
        rw [hslug]
        show (if s = [] then none
            else shoots.find? (fun item => item.routeSlug == s)) = some q
        rw [if_neg hne, hfind]
      rw [hsel]

/-- C6 witness: with a one-Project collection, an unmatched portfolio path
yields the `notFound` state and the root path yields the `home` state. -/
theorem claim_C6_witness :
    routerState [c6Proj] c6PathOther = RouterState.notFound ∧
    routerState [c6Proj] c6Root = RouterState.home :=
  ⟨(claim_C6 [c6Proj] c6PathOther).2.2.1 ( "other".toList) (by decide) (by decide),
    (claim_C6 [c6Proj] c6Root).1.mpr (by decide)⟩

/-! ### Selection order lemmas -/

theorem find?_eq_head_of_filter {α : Type} {p : α → Bool} {l : List α} {a : α}
    {t : List α} (h : l.filter p = a :: t) : l.find? p = some a := by
  induction l with
  | nil => cases h
  | cons x xs ih =>
    rw [List.filter_cons] at h
    by_cases hx : p x = true
    · rw [if_pos hx] at h
      cases h
      exact List.find?_cons_of_pos xs hx
    · rw [if_neg hx] at h
      rw [List.find?_cons_of_neg xs hx]
      exact ih h

theorem buildShoots_sorted {α : Type} (entries : List (Str × α)) :
    List.Pairwise shootLe (buildShoots entries) := by
  haveI : IsTotal (Str × List (FileEntry α)) folderPairLe :=
    ⟨fun a b => folderCompare_total a.1 b.1⟩
  haveI : IsTrans (Str × List (FileEntry α)) folderPairLe :=
    ⟨fun _ _ _ h1 h2 => folderCompare_trans h1 h2⟩
  unfold buildShoots
  rw [List.filterMap_map, List.pairwise_filterMap]
  have hsorted : List.Pairwise folderPairLe
      (List.insertionSort folderPairLe (collectBuckets entries).shootsByFolder) :=
    List.sorted_insertionSort folderPairLe (collectBuckets entries).shootsByFolder
  apply List.Pairwise.imp ?_ hsorted
  intro kv1 kv2 hle
  intro p1 hp1 p2 hp2
  unfold shootLe
  rw [(buildProject_fields (Option.mem_def.mp hp1)).1,
    (buildProject_fields (Option.mem_def.mp hp2)).1]
  exact hle

/-- C10: when the decoded portfolio segment is a slug shared by several
built Projects, selection returns the first matching Project in the sorted
shoots order, not the last; and that Project precedes every other match in
the folder comparator order (largest `Date.UTC` date value first, with
year fields `0000`–`0099` read as 1900–1999, ties by descending
case-insensitive name). -/
theorem claim_C10 {α : Type} (entries : List (Str × α)) (pathname : Str) (s : Str)
    (p : Project α) (l : List (Project α))
    (hs : getProjectSlugFromPathname pathname = some s)
    (hf : (buildShoots entries).filter (fun q => q.routeSlug == s) = p :: l) :
    selectedProject (buildShoots entries) pathname = some p ∧
    ∀ q ∈ l, folderCompare p.id q.id ≤ 0 := by
  constructor
  · unfold selectedProject
    rw [hs]
    show (if s = [] then none
        else (buildShoots entries).find? (fun item => item.routeSlug == s)) = some p
    rw [if_neg (getProjectSlug_ne_nil hs)]
    exact find?_eq_head_of_filter hf
  · have hfiltered : List.Pairwise shootLe
        ((buildShoots entries).filter (fun q => q.routeSlug == s)) :=
      List.Pairwise.sublist (List.filter_sublist (buildShoots entries))
        (buildShoots_sorted entries)
    rw [hf, List.pairwise_cons] at hfiltered
    intro q hq
    exact hfiltered.1 q hq

/-- C10 witness: two folders `2026-02-01-dup` and `2026-03-05-dup` share
the slug `dup`; selection at `/portfolio/dup` returns the more recent
shoot, which precedes the other in the comparator order. -/
theorem claim_C10_witness :
    (getProjectSlugFromPathname c10Path = some ( "dup".toList) ∧
      (buildShoots c10Entries).filter (fun q => q.routeSlug == ( "dup".toList)) =
        c10P1 :: [c10P2]) ∧
    selectedProject (buildShoots c10Entries) c10Path = some c10P1 ∧
    (∀ q ∈ [c10P2], folderCompare c10P1.id q.id ≤ 0) :=
  ⟨⟨by decide, by decide⟩,
    claim_C10 c10Entries c10Path ( "dup".toList) c10P1 [c10P2] (by decide) (by decide)⟩

/-- C4 witness: the amended statement instantiated at the concrete input
`abc//`, which normalizes to `/abc`. -/
theorem claim_C4_witness :
    normalizePathname (normalizePathname c4wPath) = normalizePathname c4wPath ∧
    (normalizePathname c4wPath = [ '/' ] ∨
      ((normalizePathname c4wPath).head? = some '/' ∧
        (normalizePathname c4wPath).getLast? ≠ some '/')) :=
  claim_C4 c4wPath

/-- C9 witness: with four digitals files the output keeps the first three
loaders in ascending filename order. -/
theorem claim_C9_witness :
    (buildDigitals c9wEntries).length = min 3 (collectBuckets c9wEntries).digitals.length ∧
    ∃ s, List.Perm s (collectBuckets c9wEntries).digitals ∧
      List.Pairwise
        (fun a b : DigitalFile Nat => jsLocaleCompareBase a.fileName b.fileName ≤ 0) s ∧
      buildDigitals c9wEntries = (s.map DigitalFile.loader).take 3 :=
  claim_C9 c9wEntries
